import Mathlib

/-!
Verification of the credential resolution and key-rotation subsystem
(`packages/shared/lib/services/environment.service.ts`).

The service is shallowly embedded: the database is a list of environment
rows plus a list of accounts behind a health flag, the process-wide hash
cache is an association list threaded through the resolver, and every
service method is translated statement by statement from the TypeScript
source.  The envelope-crypto module (`encryption.manager.ts`) and the
deployment flag (`isCloud`) are not part of the analysed sources, so they
are modelled from the specification, with deterministic reversible
encryption standing in for AES and an abstract key-derivation function
standing in for pbkdf2.
-/

namespace Nango

/-- An account row (`_nango_accounts`): tenant root owning environments. -/
structure Account where
  id : Nat
  name : String
deriving Repr, DecidableEq

/-- An environment row (`_nango_environments`).  Fields that the database
can hold as SQL NULL — every credential slot, IV/tag, and the derived
hash — are `Option String`; the service itself writes NULL into several
of them. -/
structure Environment where
  id : Nat
  account_id : Nat
  name : String
  secret_key : Option String
  secret_key_iv : Option String
  secret_key_tag : Option String
  secret_key_hashed : Option String
  pending_secret_key : Option String
  pending_secret_key_iv : Option String
  pending_secret_key_tag : Option String
  public_key : Option String
  pending_public_key : Option String
  callback_url : Option String
  hmac_enabled : Bool
deriving Repr, DecidableEq

/-- Modelled from the spec: the envelope-crypto module (`encryption.manager.ts`,
outside the analysed sources).  `encKey` is the process-wide `ENCRYPTION_KEY`
(absent = documented insecure fallback); `pbkdf2Hash key ek` abstracts
`pbkdf2(key, ENCRYPTION_KEY, 310000, 32, sha256).toString(base64)`, a
deterministic expensive derivation. -/
structure CryptoModel where
  encKey : Option String
  pbkdf2Hash : String → String → String

/-- Modelled from the spec: deterministic symmetric encryption of one field
value under the master key; the ciphertext determines the plaintext. -/
def encryptStr (ek s : String) : String :=
  "enc[" ++ ek ++ "]" ++ s

/-- Modelled from the spec: decryption of one field value; fails closed
(returns `none`) when the ciphertext was not produced under this key. -/
def decryptStr (ek c : String) : Option String :=
  let mk := "enc[" ++ ek ++ "]"
  if c.data.take mk.data.length == mk.data then
    some ⟨c.data.drop mk.data.length⟩
  else
    none

/-- Embeds `hashSecretKey` (environment.service.ts:495-501): identity fallback when
no `ENCRYPTION_KEY` is configured, otherwise the pbkdf2 derivation. -/
def hashSecretKey (cm : CryptoModel) (key : String) : String :=
  match cm.encKey with
  | none => key
  | some ek => cm.pbkdf2Hash key ek

/-- Variant of `hashSecretKey` applied to a possibly-null JavaScript value: with no
`ENCRYPTION_KEY` the null flows through unchanged, with a key configured
`pbkdf2` throws a `TypeError` on a null password. -/
def hashSecretKeyNullable (cm : CryptoModel) (key : Option String) :
    Except Unit (Option String) :=
  match cm.encKey with
  | none => Except.ok key
  | some ek =>
    match key with
    | none => Except.error ()
    | some k => Except.ok (some (cm.pbkdf2Hash k ek))

/-- Modelled from the spec: `encryptionManager.encryptEnvironment` encrypts
the designated sensitive fields (active and pending secret key), attaching
an IV and an authentication tag per field; without a master key it stores
the record unchanged. -/
def encryptEnvironment (cm : CryptoModel) (e : Environment) : Environment :=
  match cm.encKey with
  | none => e
  | some ek =>
    { e with
      secret_key := e.secret_key.map (encryptStr ek)
      secret_key_iv := e.secret_key.map (fun _ => "iv")
      secret_key_tag := e.secret_key.map (fun _ => "tag")
      pending_secret_key := e.pending_secret_key.map (encryptStr ek)
      pending_secret_key_iv := e.pending_secret_key.map (fun _ => "iv")
      pending_secret_key_tag := e.pending_secret_key.map (fun _ => "tag") }

/-- Modelled from the spec: decrypt one stored field; a field carrying an IV
must decrypt under the master key, a field without an IV is stored in the
clear and passes through. -/
def decryptField (ek : String) (v iv : Option String) :
    Option (Option String) :=
  match iv with
  | none => some v
  | some _ =>
    match v with
    | none => some none
    | some c => (decryptStr ek c).map some

/-- Modelled from the spec: `encryptionManager.decryptEnvironment` — inverse
of `encryptEnvironment`; fails closed (returns `none`) when an encrypted
field does not authenticate. -/
def decryptEnvironment (cm : CryptoModel) (e : Environment) :
    Option Environment :=
  match cm.encKey with
  | none => some e
  | some ek =>
    match decryptField ek e.secret_key e.secret_key_iv,
        decryptField ek e.pending_secret_key e.pending_secret_key_iv with
    | some sk, some pk =>
      some { e with
        secret_key := sk, secret_key_iv := none, secret_key_tag := none,
        pending_secret_key := pk, pending_secret_key_iv := none,
        pending_secret_key_tag := none }
    | _, _ => none

/-- The backing store: environment and account rows behind a health flag;
`healthy = false` models an unreachable persistence layer, where every
query throws. -/
structure Db where
  healthy : Bool
  accounts : List Account
  rows : List Environment
deriving Repr, DecidableEq

/-- A knex `update`/`insert` issued against `_nango_environments`, recorded
with the field names and values it writes (string-valued columns only). -/
structure UpdateOp where
  id : Nat
  fields : List (String × Option String)
deriving Repr, DecidableEq

/-- Embeds `update(...).where(id)`: rewrite every row matching the id. -/
def dbUpdateRow (db : Db) (id : Nat) (f : Environment → Environment) : Db :=
  { db with rows := db.rows.map (fun e => if e.id == id then f e else e) }

/-- Embeds `getById` (environment.service.ts:174-194): select by id, decrypt; the
catch block reports the database error and returns null, absorbing it. -/
def getById (cm : CryptoModel) (db : Db) (id : Nat) : Option Environment :=
  if db.healthy then
    match db.rows.find? (fun e => e.id == id) with
    | none => none
    | some e => decryptEnvironment cm e
  else
    none

/-- Embeds `getRawById` (environment.service.ts:196-216): like `getById` but with
no decryption; the catch block likewise absorbs database errors. -/
def getRawById (db : Db) (id : Nat) : Option Environment :=
  if db.healthy then
    db.rows.find? (fun e => e.id == id)
  else
    none

/-- Embeds `getEnvironmentsByAccountId` (environment.service.ts:19-37):
names of the environments under the account; the catch block reports the database error and
returns the empty list, absorbing it. -/
def getEnvironmentsByAccountId (db : Db) (account_id : Nat) : List String :=
  if db.healthy then
    (db.rows.filter (fun e => e.account_id == account_id)).map (fun e => e.name)
  else
    []

/-- The process-wide `hashLocalCache` (a `Map<string, string>`), as an
association list; keys are unique by construction of `cacheSet`. -/
abbrev Cache := List (String × String)

/-- Embeds `hashLocalCache.get`. -/
def cacheGet (c : Cache) (k : String) : Option String :=
  (List.find? (fun p => p.1 == k) c).map (fun p => p.2)

/-- Embeds `hashLocalCache.set`: overwrite any previous binding of the key. -/
def cacheSet (c : Cache) (k v : String) : Cache :=
  (k, v) :: List.filter (fun p => p.1 != k) c

/-- Embeds the account join with `first()` of `getAccountAndEnvironment`:
the first environment row satisfying the where-clause that has an owning
account row, paired with that account. -/
def joinFirst (db : Db) (p : Environment → Bool) :
    Option (Account × Environment) :=
  match db.rows.find?
      (fun e => p e && db.accounts.any (fun a => a.id == e.account_id)) with
  | none => none
  | some e =>
    (db.accounts.find? (fun a => a.id == e.account_id)).map (fun a => (a, e))

/-- The three shapes of `opts` accepted by `getAccountAndEnvironment`. -/
inductive LookupOpts where
  | secretKey (k : String)
  | publicKey (k : String)
  | byName (accountId : Nat) (envName : String)
deriving Repr, DecidableEq

/-- Result of one resolver call: the resolved pair (or null), the hash
cache after the call, and how many times `hashSecretKey` was invoked
(the derivation-call counter of the testable property in the spec). -/
structure ResolveOut where
  result : Option (Account × Environment)
  cache : Cache
  derivations : Nat
deriving Repr, DecidableEq

/-- The `hashLocalCache.get(k) || await hashSecretKey(k)` step of
`getAccountAndEnvironment`: JavaScript truthiness, so an empty cached
string also triggers a fresh derivation.  Returns the hash used for the
lookup and how many times `hashSecretKey` ran (0 or 1). -/
def lookupHash (cm : CryptoModel) (cache : Cache) (k : String) :
    String × Nat :=
  match cacheGet cache k with
  | some h => if h == "" then (hashSecretKey cm k, 1) else (h, 0)
  | none => (hashSecretKey cm k, 1)

/-- Embeds `getAccountAndEnvironment` (environment.service.ts:126-162).  For a
secret key: take the hash from the cache or derive it (`lookupHash`), then
look up by `secret_key_hashed`; the cache is written only after a row
matched (`if (hash && ...)`, skipping an empty hash), and the matched row
is decrypted before being returned.  The method has no try/catch, so an
unreachable store propagates as an error. -/
def getAccountAndEnvironment (cm : CryptoModel) (db : Db) (cache : Cache)
    (opts : LookupOpts) : Except Unit ResolveOut :=
  if db.healthy then
    match opts with
    | LookupOpts.secretKey k =>
      let hash := (lookupHash cm cache k).1
      let derivs := (lookupHash cm cache k).2
      match joinFirst db (fun e => e.secret_key_hashed == some hash) with
      | none => Except.ok ⟨none, cache, derivs⟩
      | some (a, env) =>
        let cache2 := if hash == "" then cache else cacheSet cache k hash
        match decryptEnvironment cm env with
        | some envd => Except.ok ⟨some (a, envd), cache2, derivs⟩
        | none => Except.ok ⟨none, cache2, derivs⟩
    | LookupOpts.publicKey k =>
      match joinFirst db (fun e => e.public_key == some k) with
      | none => Except.ok ⟨none, cache, 0⟩
      | some (a, env) =>
        match decryptEnvironment cm env with
        | some envd => Except.ok ⟨some (a, envd), cache, 0⟩
        | none => Except.ok ⟨none, cache, 0⟩
    | LookupOpts.byName aid nm =>
      match joinFirst db (fun e => e.account_id == aid && e.name == nm) with
      | none => Except.ok ⟨none, cache, 0⟩
      | some (a, env) =>
        match decryptEnvironment cm env with
        | some envd => Except.ok ⟨some (a, envd), cache, 0⟩
        | none => Except.ok ⟨none, cache, 0⟩
  else
    Except.error ()

/-- Process configuration: `isCloud` from `@nangohq/utils` (modelled from the
spec: true only in the managed cloud deployment) and `process.env` as an
ordered list of name/value pairs. -/
structure Config where
  isCloud : Bool
  procEnv : List (String × String)

/-- Models `String.startsWith`, written on the underlying character list (the
byte-position loop of the built-in does not reduce in the kernel). -/
def strStarts (mk s : String) : Bool :=
  mk.data.isPrefixOf s.data

/-- Dropping the first `n` characters of a string, on the character list. -/
def strDropChars (n : Nat) (s : String) : String :=
  ⟨s.data.drop n⟩

/-- Models `String.toLower`, character by character. -/
def strLower (s : String) : String :=
  ⟨s.data.map Char.toLower⟩

/-- The variable-name marker of the self-hosted secret-key override. -/
def secretKeyVarPre : String := "NANGO_SECRET_KEY_"

/-- The variable-name marker of the self-hosted public-key override. -/
def publicKeyVarPre : String := "NANGO_PUBLIC_KEY_"

/-- Embeds `getAccountAndEnvironmentBySecretKey` (environment.service.ts:39-64).
Outside the cloud, scan the `NANGO_SECRET_KEY_*` variables in order; on the
first value equal to the presented key, look the suffix up as a lowercased
environment name (by name alone — no account filter) and resolve by
`{accountId: thatRow.account_id, envName}`, returning null when no row has
that name; only when no variable value matched fall through to the hashed
lookup.  (The replace call removes the marker, which the filter on the
marker guarantees is the leading occurrence, so it is a character drop.) -/
def getAccountAndEnvironmentBySecretKey (cm : CryptoModel) (cfg : Config)
    (db : Db) (cache : Cache) (secretKey : String) : Except Unit ResolveOut :=
  if !cfg.isCloud then
    let vars := cfg.procEnv.filter (fun p => strStarts secretKeyVarPre p.1)
    match vars.find? (fun p => p.2 == secretKey) with
    | some pr =>
      let envName := strLower (strDropChars secretKeyVarPre.data.length pr.1)
      if db.healthy then
        match db.rows.find? (fun e => e.name == envName) with
        | none => Except.ok ⟨none, cache, 0⟩
        | some env =>
          getAccountAndEnvironment cm db cache
            (LookupOpts.byName env.account_id envName)
      else
        Except.error ()
    | none =>
      getAccountAndEnvironment cm db cache (LookupOpts.secretKey secretKey)
  else
    getAccountAndEnvironment cm db cache (LookupOpts.secretKey secretKey)

/-- Embeds `getAccountAndEnvironmentByPublicKey` (environment.service.ts:101-124):
same two-path structure over the `NANGO_PUBLIC_KEY_*` variables. -/
def getAccountAndEnvironmentByPublicKey (cm : CryptoModel) (cfg : Config)
    (db : Db) (cache : Cache) (publicKey : String) : Except Unit ResolveOut :=
  if !cfg.isCloud then
    let vars := cfg.procEnv.filter (fun p => strStarts publicKeyVarPre p.1)
    match vars.find? (fun p => p.2 == publicKey) with
    | some pr =>
      let envName := strLower (strDropChars publicKeyVarPre.data.length pr.1)
      if db.healthy then
        match db.rows.find? (fun e => e.name == envName) with
        | none => Except.ok ⟨none, cache, 0⟩
        | some env =>
          getAccountAndEnvironment cm db cache
            (LookupOpts.byName env.account_id envName)
      else
        Except.error ()
    | none =>
      getAccountAndEnvironment cm db cache (LookupOpts.publicKey publicKey)
  else
    getAccountAndEnvironment cm db cache (LookupOpts.publicKey publicKey)

/-- Embeds `rotateSecretKey` (environment.service.ts:391-408).  The freshly
generated `uuid.v4()` value is passed in as `newKey`.  After the existence
check it issues two updates: first the raw new pending key by itself, then
the whole environment record re-encrypted with the pending key set.
Returns the new pending value, the final store, and the updates issued. -/
def rotateSecretKey (cm : CryptoModel) (db : Db) (id : Nat) (newKey : String) :
    Option String × Db × List UpdateOp :=
  match getById cm db id with
  | none => (none, db, [])
  | some environment =>
    let db1 := dbUpdateRow db id
      (fun e => { e with pending_secret_key := some newKey })
    let op1 : UpdateOp := ⟨id, [("pending_secret_key", some newKey)]⟩
    let enc := encryptEnvironment cm
      { environment with pending_secret_key := some newKey }
    let db2 := dbUpdateRow db1 id (fun _ => enc)
    let op2 : UpdateOp :=
      ⟨id, [("secret_key", enc.secret_key),
            ("pending_secret_key", enc.pending_secret_key),
            ("secret_key_hashed", enc.secret_key_hashed)]⟩
    (some newKey, db2, [op1, op2])

/-- Embeds `rotatePublicKey` (environment.service.ts:410-416).  No existence
check: the update is issued unconditionally (a no-op when no row matches
the id) and the generated value is returned regardless.  Without a
try/catch an unreachable store propagates as an error. -/
def rotatePublicKey (db : Db) (id : Nat) (newKey : String) :
    Except Unit (Option String × Db × List UpdateOp) :=
  if db.healthy then
    Except.ok (some newKey,
      dbUpdateRow db id (fun e => { e with pending_public_key := some newKey }),
      [⟨id, [("pending_public_key", some newKey)]⟩])
  else
    Except.error ()

/-- Embeds `rotateKey` (environment.service.ts:355-365): dispatch on the type
string, null for an unknown type. -/
def rotateKey (cm : CryptoModel) (db : Db) (id : Nat) (ty : String)
    (newKey : String) : Except Unit (Option String × Db × List UpdateOp) :=
  if ty == "secret" then
    Except.ok (rotateSecretKey cm db id newKey)
  else if ty == "public" then
    rotatePublicKey db id newKey
  else
    Except.ok (none, db, [])

/-- Embeds `revertSecretKey` (environment.service.ts:418-432): after the existence
check, null out the pending secret key and its IV/tag, and return the
still-active (decrypted) secret key. -/
def revertSecretKey (cm : CryptoModel) (db : Db) (id : Nat) :
    Option String × Db × List UpdateOp :=
  match getById cm db id with
  | none => (none, db, [])
  | some environment =>
    let db1 := dbUpdateRow db id
      (fun e => { e with pending_secret_key := none,
                         pending_secret_key_iv := none,
                         pending_secret_key_tag := none })
    (environment.secret_key, db1, [⟨id, [("pending_secret_key", none)]⟩])

/-- Embeds `revertPublicKey` (environment.service.ts:434-444): null out the
pending public key and return the still-active public key. -/
def revertPublicKey (cm : CryptoModel) (db : Db) (id : Nat) :
    Option String × Db × List UpdateOp :=
  match getById cm db id with
  | none => (none, db, [])
  | some environment =>
    let db1 := dbUpdateRow db id
      (fun e => { e with pending_public_key := none })
    (environment.public_key, db1, [⟨id, [("pending_public_key", none)]⟩])

/-- Embeds `revertKey` (environment.service.ts:367-377). -/
def revertKey (cm : CryptoModel) (db : Db) (id : Nat) (ty : String) :
    Option String × Db × List UpdateOp :=
  if ty == "secret" then revertSecretKey cm db id
  else if ty == "public" then revertPublicKey cm db id
  else (none, db, [])

/-- Embeds `activateSecretKey` (environment.service.ts:446-474).  Reads the raw
row, decrypts it (the TypeScript non-null assertion: a failed decryption
makes the next property access throw), hashes
`decrypted.pending_secret_key!` — with no pending key this is
`hashSecretKey(null)`, which throws inside pbkdf2 when an encryption key
is configured and yields null otherwise — then copies the raw pending
ciphertext, IV and tag into the active slot together with the hash and
nulls out the pending slot.  There is no check that a pending key exists. -/
def activateSecretKey (cm : CryptoModel) (db : Db) (id : Nat) :
    Except Unit (Bool × Db × List UpdateOp) :=
  match getRawById db id with
  | none => Except.ok (false, db, [])
  | some environment =>
    match decryptEnvironment cm environment with
    | none => Except.error ()
    | some decrypted =>
      match hashSecretKeyNullable cm decrypted.pending_secret_key with
      | Except.error e => Except.error e
      | Except.ok hashed =>
        let db1 := dbUpdateRow db id
          (fun e => { e with
            secret_key := environment.pending_secret_key,
            secret_key_iv := environment.pending_secret_key_iv,
            secret_key_tag := environment.pending_secret_key_tag,
            secret_key_hashed := hashed,
            pending_secret_key := none,
            pending_secret_key_iv := none,
            pending_secret_key_tag := none })
        let op : UpdateOp :=
          ⟨id, [("secret_key", environment.pending_secret_key),
                ("secret_key_hashed", hashed),
                ("pending_secret_key", none)]⟩
        match getById cm db1 id with
        | none => Except.ok (false, db1, [op])
        | some _ => Except.ok (true, db1, [op])

/-- Embeds `activatePublicKey` (environment.service.ts:476-492): copy the pending
public key (null when none is pending — no check) into the active slot and
null out the pending slot. -/
def activatePublicKey (cm : CryptoModel) (db : Db) (id : Nat) :
    Bool × Db × List UpdateOp :=
  match getById cm db id with
  | none => (false, db, [])
  | some environment =>
    let db1 := dbUpdateRow db id
      (fun e => { e with public_key := environment.pending_public_key,
                         pending_public_key := none })
    (true, db1,
      [⟨id, [("public_key", environment.pending_public_key),
             ("pending_public_key", none)]⟩])

/-- Embeds `activateKey` (environment.service.ts:379-389). -/
def activateKey (cm : CryptoModel) (db : Db) (id : Nat) (ty : String) :
    Except Unit (Bool × Db × List UpdateOp) :=
  if ty == "secret" then activateSecretKey cm db id
  else if ty == "public" then Except.ok (activatePublicKey cm db id)
  else Except.ok (false, db, [])

/-- Embeds `createEnvironment` (environment.service.ts:228-249).  The insert writes
only `account_id` and `name`; the database fills the credential defaults,
modelled as the `defSecret`/`defPublic` parameters.  The row is then read
back, the secret hash computed, and the whole record re-encrypted and
written in a second update (the documented two-phase create). -/
def createEnvironment (cm : CryptoModel) (db : Db) (accountId : Nat)
    (name : String) (freshId : Nat) (defSecret defPublic : String) :
    Except Unit (Option Environment × Db × List UpdateOp) :=
  if db.healthy then
    let inserted : Environment :=
      { id := freshId, account_id := accountId, name := name,
        secret_key := some defSecret, secret_key_iv := none,
        secret_key_tag := none, secret_key_hashed := none,
        pending_secret_key := none, pending_secret_key_iv := none,
        pending_secret_key_tag := none, public_key := some defPublic,
        pending_public_key := none, callback_url := none,
        hmac_enabled := false }
    let db1 : Db := { db with rows := db.rows ++ [inserted] }
    let opIns : UpdateOp := ⟨freshId, [("name", some name)]⟩
    match getById cm db1 freshId with
    | none => Except.ok (none, db1, [opIns])
    | some environment =>
      match hashSecretKeyNullable cm environment.secret_key with
      | Except.error e => Except.error e
      | Except.ok hashed =>
        let enc := encryptEnvironment cm
          { environment with secret_key_hashed := hashed }
        let db2 := dbUpdateRow db1 freshId (fun _ => enc)
        let opUpd : UpdateOp :=
          ⟨freshId, [("secret_key", enc.secret_key),
                     ("pending_secret_key", enc.pending_secret_key),
                     ("secret_key_hashed", enc.secret_key_hashed)]⟩
        Except.ok (decryptEnvironment cm enc, db2, [opIns, opUpd])
  else
    Except.error ()

/-- The in-memory shape of a freshly created environment row after the
two-phase create completes: the database credential defaults plus the
hash derived from the default secret. -/
def createdEnv (cm : CryptoModel) (accountId : Nat) (name : String)
    (freshId : Nat) (defSecret defPublic : String) : Environment :=
  { id := freshId, account_id := accountId, name := name,
    secret_key := some defSecret, secret_key_iv := none,
    secret_key_tag := none,
    secret_key_hashed := some (hashSecretKey cm defSecret),
    pending_secret_key := none, pending_secret_key_iv := none,
    pending_secret_key_tag := none, public_key := some defPublic,
    pending_public_key := none, callback_url := none,
    hmac_enabled := false }

/-- A string value is in encrypted form for the configured master key:
it is the encryption of some plaintext (equivalently, carries the
marker of the deterministic scheme). -/
def isEncryptedForm (cm : CryptoModel) (v : String) : Bool :=
  match cm.encKey with
  | none => false
  | some ek => (decryptStr ek v).isSome

/-- The sensitive (secret-credential) columns of the environment row. -/
def sensitiveField (nm : String) : Bool :=
  nm == "secret_key" || nm == "pending_secret_key"

/-- Every sensitive field value an update writes is in encrypted form. -/
def writesOnlyEncrypted (cm : CryptoModel) (ops : List UpdateOp) : Bool :=
  ops.all (fun op => op.fields.all (fun f =>
    !sensitiveField f.1 ||
      (match f.2 with
       | none => true
       | some v => isEncryptedForm cm v)))

/-- An environment record in its in-memory (decrypted) shape: no leftover
IVs or authentication tags. -/
def plainEnv (e : Environment) : Prop :=
  e.secret_key_iv = none ∧ e.secret_key_tag = none ∧
  e.pending_secret_key_iv = none ∧ e.pending_secret_key_tag = none

instance (e : Environment) : Decidable (plainEnv e) := by
  unfold plainEnv; infer_instance

/-- Every cache binding maps a key to its derived hash (the invariant the
success-only cache policy maintains). -/
def cacheConsistent (cm : CryptoModel) (c : Cache) : Prop :=
  ∀ p ∈ c, p.2 = hashSecretKey cm p.1

instance (cm : CryptoModel) (c : Cache) :
    Decidable (cacheConsistent cm c) := by
  unfold cacheConsistent; infer_instance

theorem decryptStr_encryptStr (ek s : String) :
    decryptStr ek (encryptStr ek s) = some s := by
  simp only [decryptStr, encryptStr, String.data_append, List.take_left,
    List.drop_left]
  simp

theorem decryptEnvironment_encryptEnvironment (cm : CryptoModel)
    (e : Environment) (h : plainEnv e) :
    decryptEnvironment cm (encryptEnvironment cm e) = some e := by
  obtain ⟨h1, h2, h3, h4⟩ := h
  obtain ⟨i, ai, nm, sk, siv, stg, sh, pk, piv, ptg, pub, ppub, cb, hm⟩ := e
  simp only at h1 h2 h3 h4
  subst h1 h2 h3 h4
  cases hek : cm.encKey with
  | none => simp [decryptEnvironment, encryptEnvironment, hek]
  | some ek =>
    cases sk <;> cases pk <;>
      simp [decryptEnvironment, encryptEnvironment, decryptField, hek,
        decryptStr_encryptStr]

theorem find?_first {α : Type} (p : α → Bool) (pre post : List α) (r : α)
    (hpre : ∀ e ∈ pre, p e = false) (hr : p r = true) :
    (pre ++ r :: post).find? p = some r := by
  rw [List.find?_append]
  rw [List.find?_eq_none.mpr (fun x hx => by simp [hpre x hx])]
  simp [List.find?_cons_of_pos _ hr]

theorem dbUpdateRow_rows (db : Db) (id : Nat) (f : Environment → Environment)
    (pre post : List Environment) (r : Environment)
    (h : db.rows = pre ++ r :: post) (hr : r.id = id)
    (hpre : ∀ e ∈ pre, e.id ≠ id) (hpost : ∀ e ∈ post, e.id ≠ id) :
    (dbUpdateRow db id f).rows = pre ++ f r :: post := by
  simp only [dbUpdateRow, h, List.map_append, List.map_cons]
  have e1 : pre.map (fun e => if e.id == id then f e else e) = pre := by
    conv_rhs => rw [← List.map_id pre]
    exact List.map_congr_left (fun e he => by simp [hpre e he])
  have e2 : post.map (fun e => if e.id == id then f e else e) = post := by
    conv_rhs => rw [← List.map_id post]
    exact List.map_congr_left (fun e he => by simp [hpost e he])
  rw [e1, e2, if_pos (by simp [hr])]

theorem joinFirst_first (db : Db) (p : Environment → Bool)
    (pre post : List Environment) (r : Environment) (a : Account)
    (hrows : db.rows = pre ++ r :: post)
    (hpre : ∀ e ∈ pre, p e = false)
    (hr : p r = true)
    (hacct : db.accounts.find? (fun x => x.id == r.account_id) = some a) :
    joinFirst db p = some (a, r) := by
  have hpa : (a.id == r.account_id) = true := by
    have := List.find?_some hacct
    simpa using this
  have hany : db.accounts.any (fun x => x.id == r.account_id) = true :=
    List.any_eq_true.mpr ⟨a, List.mem_of_find?_eq_some hacct, hpa⟩
  unfold joinFirst
  rw [hrows, find?_first _ pre post r
    (fun e he => by simp [hpre e he]) (by simp [hr, hany])]
  simp [hacct]

theorem joinFirst_none (db : Db) (p : Environment → Bool)
    (h : ∀ e ∈ db.rows, p e = false) : joinFirst db p = none := by
  unfold joinFirst
  rw [List.find?_eq_none.mpr (fun x hx => by simp [h x hx])]

theorem cacheGet_consistent (cm : CryptoModel) (c : Cache) (k h : String)
    (hc : cacheConsistent cm c) (hget : cacheGet c k = some h) :
    h = hashSecretKey cm k := by
  unfold cacheGet at hget
  cases hf : List.find? (fun p => p.1 == k) c with
  | none => rw [hf] at hget; simp at hget
  | some pr =>
    rw [hf] at hget
    have hget2 : pr.2 = h := by simpa using hget
    have hmem := List.mem_of_find?_eq_some hf
    have hkey : pr.1 = k := by simpa using List.find?_some hf
    rw [← hget2, hc pr hmem, hkey]

theorem lookupHash_consistent (cm : CryptoModel) (cache : Cache) (k : String)
    (hc : cacheConsistent cm cache) :
    (lookupHash cm cache k).1 = hashSecretKey cm k := by
  unfold lookupHash
  cases hget : cacheGet cache k with
  | none => rfl
  | some h =>
    have hh := cacheGet_consistent cm cache k h hc hget
    by_cases he : h = ""
    · simp [he]
    · have hbe : (h == "") = false := by simpa using he
      simp [hbe]
      exact hh

@[simp] theorem encryptEnvironment_id (cm : CryptoModel) (e : Environment) :
    (encryptEnvironment cm e).id = e.id := by
  unfold encryptEnvironment; cases cm.encKey <;> rfl

@[simp] theorem encryptEnvironment_account_id (cm : CryptoModel)
    (e : Environment) :
    (encryptEnvironment cm e).account_id = e.account_id := by
  unfold encryptEnvironment; cases cm.encKey <;> rfl

@[simp] theorem encryptEnvironment_name (cm : CryptoModel) (e : Environment) :
    (encryptEnvironment cm e).name = e.name := by
  unfold encryptEnvironment; cases cm.encKey <;> rfl

@[simp] theorem encryptEnvironment_hashed (cm : CryptoModel)
    (e : Environment) :
    (encryptEnvironment cm e).secret_key_hashed = e.secret_key_hashed := by
  unfold encryptEnvironment; cases cm.encKey <;> rfl

@[simp] theorem encryptEnvironment_public_key (cm : CryptoModel)
    (e : Environment) :
    (encryptEnvironment cm e).public_key = e.public_key := by
  unfold encryptEnvironment; cases cm.encKey <;> rfl

theorem getById_spec (cm : CryptoModel) (db : Db) (id : Nat)
    (p : Environment) (pre post : List Environment)
    (hdb : db.healthy = true)
    (hrows : db.rows = pre ++ encryptEnvironment cm p :: post)
    (hid : p.id = id)
    (hpre : ∀ e ∈ pre, e.id ≠ id)
    (hp : plainEnv p) :
    getById cm db id = some p := by
  have hfind : db.rows.find? (fun e => e.id == id) =
      some (encryptEnvironment cm p) := by
    rw [hrows]
    exact find?_first _ pre post _ (fun e he => by simp [hpre e he])
      (by simp [hid])
  unfold getById
  rw [hdb, hfind]
  simp [decryptEnvironment_encryptEnvironment cm p hp]

theorem getRawById_spec (cm : CryptoModel) (db : Db) (id : Nat)
    (p : Environment) (pre post : List Environment)
    (hdb : db.healthy = true)
    (hrows : db.rows = pre ++ encryptEnvironment cm p :: post)
    (hid : p.id = id)
    (hpre : ∀ e ∈ pre, e.id ≠ id) :
    getRawById db id = some (encryptEnvironment cm p) := by
  have hfind : db.rows.find? (fun e => e.id == id) =
      some (encryptEnvironment cm p) := by
    rw [hrows]
    exact find?_first _ pre post _ (fun e he => by simp [hpre e he])
      (by simp [hid])
  unfold getRawById
  rw [hdb, hfind]
  simp

theorem dbUpdateRow_eq (db : Db) (id : Nat) (f : Environment → Environment)
    (pre post : List Environment) (r : Environment)
    (h : db.rows = pre ++ r :: post) (hr : r.id = id)
    (hpre : ∀ e ∈ pre, e.id ≠ id) (hpost : ∀ e ∈ post, e.id ≠ id) :
    dbUpdateRow db id f = { db with rows := pre ++ f r :: post } := by
  have h1 := dbUpdateRow_rows db id f pre post r h hr hpre hpost
  unfold dbUpdateRow at h1 ⊢
  simp only at h1
  rw [h1]

theorem hashSecretKeyNullable_some (cm : CryptoModel) (k : String) :
    hashSecretKeyNullable cm (some k) =
      Except.ok (some (hashSecretKey cm k)) := by
  unfold hashSecretKeyNullable hashSecretKey
  cases cm.encKey <;> rfl

theorem rotateSecretKey_spec (cm : CryptoModel) (db : Db) (id : Nat)
    (newKey : String) (p : Environment) (pre post : List Environment)
    (hdb : db.healthy = true)
    (hrows : db.rows = pre ++ encryptEnvironment cm p :: post)
    (hid : p.id = id)
    (hpre : ∀ e ∈ pre, e.id ≠ id) (hpost : ∀ e ∈ post, e.id ≠ id)
    (hp : plainEnv p) :
    rotateSecretKey cm db id newKey =
      (some newKey,
       { db with
           rows := pre ++
             encryptEnvironment cm
               { p with pending_secret_key := some newKey } :: post },
       [⟨id, [("pending_secret_key", some newKey)]⟩,
        ⟨id, [("secret_key",
                (encryptEnvironment cm
                  { p with pending_secret_key := some newKey }).secret_key),
              ("pending_secret_key",
                (encryptEnvironment cm
                  { p with pending_secret_key := some newKey
                    }).pending_secret_key),
              ("secret_key_hashed",
                (encryptEnvironment cm
                  { p with pending_secret_key := some newKey
                    }).secret_key_hashed)]⟩]) := by
  have hby := getById_spec cm db id p pre post hdb hrows hid hpre hp
  simp only [rotateSecretKey, hby]
  rw [dbUpdateRow_eq db id _ pre post (encryptEnvironment cm p) hrows
    (by simp [hid]) hpre hpost]
  rw [dbUpdateRow_eq _ id _ pre post
    { encryptEnvironment cm p with pending_secret_key := some newKey } rfl
    (by simp [hid]) hpre hpost]

theorem promote_encrypt (cm : CryptoModel) (p : Environment) (k : String)
    (hp : plainEnv p) (hpend : p.pending_secret_key = some k) :
    { encryptEnvironment cm p with
        secret_key := (encryptEnvironment cm p).pending_secret_key,
        secret_key_iv := (encryptEnvironment cm p).pending_secret_key_iv,
        secret_key_tag := (encryptEnvironment cm p).pending_secret_key_tag,
        secret_key_hashed := some (hashSecretKey cm k),
        pending_secret_key := none,
        pending_secret_key_iv := none,
        pending_secret_key_tag := none } =
      encryptEnvironment cm
        { p with
            secret_key := some k,
            secret_key_hashed := some (hashSecretKey cm k),
            pending_secret_key := none } := by
  obtain ⟨h1, h2, h3, h4⟩ := hp
  obtain ⟨i, ai, nm, sk, siv, stg, sh, pk, piv, ptg, pub, ppub, cb, hm⟩ := p
  simp only at h1 h2 h3 h4 hpend
  subst h1 h2 h3 h4 hpend
  cases hek : cm.encKey <;>
    simp [encryptEnvironment, hashSecretKey, hek]

theorem clearPending_encrypt (cm : CryptoModel) (p : Environment) :
    { encryptEnvironment cm p with
        pending_secret_key := none,
        pending_secret_key_iv := none,
        pending_secret_key_tag := none } =
      encryptEnvironment cm
        { p with
            pending_secret_key := none,
            pending_secret_key_iv := none,
            pending_secret_key_tag := none } := by
  obtain ⟨i, ai, nm, sk, siv, stg, sh, pk, piv, ptg, pub, ppub, cb, hm⟩ := p
  cases hek : cm.encKey <;>
    simp [encryptEnvironment, hek]

theorem activateSecretKey_spec (cm : CryptoModel) (db : Db) (id : Nat)
    (k : String) (p : Environment) (pre post : List Environment)
    (hdb : db.healthy = true)
    (hrows : db.rows = pre ++ encryptEnvironment cm p :: post)
    (hid : p.id = id)
    (hpre : ∀ e ∈ pre, e.id ≠ id) (hpost : ∀ e ∈ post, e.id ≠ id)
    (hp : plainEnv p)
    (hpend : p.pending_secret_key = some k) :
    activateSecretKey cm db id =
      Except.ok (true,
        { db with
            rows := pre ++
              encryptEnvironment cm
                { p with
                    secret_key := some k,
                    secret_key_hashed := some (hashSecretKey cm k),
                    pending_secret_key := none } :: post },
        [⟨id, [("secret_key", (encryptEnvironment cm p).pending_secret_key),
               ("secret_key_hashed", some (hashSecretKey cm k)),
               ("pending_secret_key", none)]⟩]) := by
  have hraw := getRawById_spec cm db id p pre post hdb hrows hid hpre
  have hdec := decryptEnvironment_encryptEnvironment cm p hp
  simp only [activateSecretKey, hraw, hdec, hpend, hashSecretKeyNullable_some]
  rw [dbUpdateRow_eq db id _ pre post (encryptEnvironment cm p) hrows
    (by simp [hid]) hpre hpost]
  rw [promote_encrypt cm p k hp hpend]
  have hplain2 : plainEnv
      { p with
          secret_key := some k,
          secret_key_hashed := some (hashSecretKey cm k),
          pending_secret_key := none } := by
    obtain ⟨h1, h2, h3, h4⟩ := hp
    exact ⟨h1, h2, h3, h4⟩
  have hby2 := getById_spec cm
    { db with
        rows := pre ++
          encryptEnvironment cm
            { p with
                secret_key := some k,
                secret_key_hashed := some (hashSecretKey cm k),
                pending_secret_key := none } :: post }
    id
    { p with
        secret_key := some k,
        secret_key_hashed := some (hashSecretKey cm k),
        pending_secret_key := none }
    pre post hdb rfl hid hpre hplain2
  simp only [hby2]

theorem revertSecretKey_spec (cm : CryptoModel) (db : Db) (id : Nat)
    (p : Environment) (pre post : List Environment)
    (hdb : db.healthy = true)
    (hrows : db.rows = pre ++ encryptEnvironment cm p :: post)
    (hid : p.id = id)
    (hpre : ∀ e ∈ pre, e.id ≠ id) (hpost : ∀ e ∈ post, e.id ≠ id)
    (hp : plainEnv p) :
    revertSecretKey cm db id =
      (p.secret_key,
       { db with
           rows := pre ++
             encryptEnvironment cm
               { p with
                   pending_secret_key := none,
                   pending_secret_key_iv := none,
                   pending_secret_key_tag := none } :: post },
       [⟨id, [("pending_secret_key", none)]⟩]) := by
  have hby := getById_spec cm db id p pre post hdb hrows hid hpre hp
  simp only [revertSecretKey, hby]
  rw [dbUpdateRow_eq db id _ pre post (encryptEnvironment cm p) hrows
    (by simp [hid]) hpre hpost]
  rw [clearPending_encrypt cm p]

theorem createEnvironment_spec (cm : CryptoModel) (db : Db)
    (accountId : Nat) (name : String) (freshId : Nat)
    (defSecret defPublic : String)
    (hdb : db.healthy = true)
    (hfresh : ∀ e ∈ db.rows, e.id ≠ freshId) :
    createEnvironment cm db accountId name freshId defSecret defPublic =
      Except.ok
        (some (createdEnv cm accountId name freshId defSecret defPublic),
         { db with
             rows := db.rows ++
               [encryptEnvironment cm
                 (createdEnv cm accountId name freshId defSecret
                   defPublic)] },
         [⟨freshId, [("name", some name)]⟩,
          ⟨freshId,
           [("secret_key",
             (encryptEnvironment cm
               (createdEnv cm accountId name freshId defSecret
                 defPublic)).secret_key),
            ("pending_secret_key",
             (encryptEnvironment cm
               (createdEnv cm accountId name freshId defSecret
                 defPublic)).pending_secret_key),
            ("secret_key_hashed",
             (encryptEnvironment cm
               (createdEnv cm accountId name freshId defSecret
                 defPublic)).secret_key_hashed)]⟩]) := by
  have hins_dec : decryptEnvironment cm
      { id := freshId, account_id := accountId, name := name,
        secret_key := some defSecret, secret_key_iv := none,
        secret_key_tag := none, secret_key_hashed := none,
        pending_secret_key := none, pending_secret_key_iv := none,
        pending_secret_key_tag := none, public_key := some defPublic,
        pending_public_key := none, callback_url := none,
        hmac_enabled := false } =
      some
        { id := freshId, account_id := accountId, name := name,
          secret_key := some defSecret, secret_key_iv := none,
          secret_key_tag := none, secret_key_hashed := none,
          pending_secret_key := none, pending_secret_key_iv := none,
          pending_secret_key_tag := none, public_key := some defPublic,
          pending_public_key := none, callback_url := none,
          hmac_enabled := false } := by
    cases hek : cm.encKey <;>
      simp [decryptEnvironment, decryptField, hek]
  have hfind : (db.rows ++
      ({ id := freshId, account_id := accountId, name := name,
         secret_key := some defSecret, secret_key_iv := none,
         secret_key_tag := none, secret_key_hashed := none,
         pending_secret_key := none, pending_secret_key_iv := none,
         pending_secret_key_tag := none, public_key := some defPublic,
         pending_public_key := none, callback_url := none,
         hmac_enabled := false } : Environment) :: []).find?
      (fun e => e.id == freshId) =
      some
        { id := freshId, account_id := accountId, name := name,
          secret_key := some defSecret, secret_key_iv := none,
          secret_key_tag := none, secret_key_hashed := none,
          pending_secret_key := none, pending_secret_key_iv := none,
          pending_secret_key_tag := none, public_key := some defPublic,
          pending_public_key := none, callback_url := none,
          hmac_enabled := false } :=
    find?_first _ db.rows [] _ (fun e he => by simp [hfresh e he]) (by simp)
  have hupd := dbUpdateRow_eq
    { db with
        rows := db.rows ++
          [{ id := freshId, account_id := accountId, name := name,
             secret_key := some defSecret, secret_key_iv := none,
             secret_key_tag := none, secret_key_hashed := none,
             pending_secret_key := none, pending_secret_key_iv := none,
             pending_secret_key_tag := none, public_key := some defPublic,
             pending_public_key := none, callback_url := none,
             hmac_enabled := false }] }
    freshId
    (fun _ => encryptEnvironment cm
      (createdEnv cm accountId name freshId defSecret defPublic))
    db.rows []
    { id := freshId, account_id := accountId, name := name,
      secret_key := some defSecret, secret_key_iv := none,
      secret_key_tag := none, secret_key_hashed := none,
      pending_secret_key := none, pending_secret_key_iv := none,
      pending_secret_key_tag := none, public_key := some defPublic,
      pending_public_key := none, callback_url := none,
      hmac_enabled := false }
    rfl rfl hfresh (fun e he => absurd he (List.not_mem_nil e))
  have hdecC := decryptEnvironment_encryptEnvironment cm
    (createdEnv cm accountId name freshId defSecret defPublic)
    ⟨rfl, rfl, rfl, rfl⟩
  simp only [createEnvironment, getById, hdb, if_true, hfind, hins_dec,
    hashSecretKeyNullable_some, createdEnv, hdecC]
  simp only [createdEnv] at hupd hdecC
  rw [hdb] at hupd
  rw [hupd]
  simp [hdecC]

theorem resolveSecret_found (cm : CryptoModel) (db : Db) (cache : Cache)
    (k : String) (p : Environment) (pre post : List Environment)
    (acct : Account)
    (hdb : db.healthy = true)
    (hrows : db.rows = pre ++ encryptEnvironment cm p :: post)
    (hp : plainEnv p)
    (hmatch : p.secret_key_hashed = some (hashSecretKey cm k))
    (hpre : ∀ e ∈ pre, e.secret_key_hashed ≠ some (hashSecretKey cm k))
    (hacct : db.accounts.find? (fun a => a.id == p.account_id) = some acct)
    (hc : cacheConsistent cm cache)
    (hne : hashSecretKey cm k ≠ "") :
    getAccountAndEnvironment cm db cache (LookupOpts.secretKey k) =
      Except.ok ⟨some (acct, p), cacheSet cache k (hashSecretKey cm k),
        (lookupHash cm cache k).2⟩ := by
  have hlh := lookupHash_consistent cm cache k hc
  have hjf : joinFirst db
      (fun e => e.secret_key_hashed == some (hashSecretKey cm k)) =
      some (acct, encryptEnvironment cm p) := by
    refine joinFirst_first db _ pre post (encryptEnvironment cm p) acct hrows
      (fun e he => by simp [hpre e he]) (by simp [hmatch]) (by simpa using hacct)
  have hbe : (hashSecretKey cm k == "") = false := by simpa using hne
  have hdec := decryptEnvironment_encryptEnvironment cm p hp
  simp only [getAccountAndEnvironment, hdb, hlh, hjf, hbe, hdec, if_true,
    if_false, Bool.false_eq_true]

theorem resolveSecret_none (cm : CryptoModel) (db : Db) (cache : Cache)
    (k : String)
    (hdb : db.healthy = true)
    (hmiss : ∀ e ∈ db.rows,
      e.secret_key_hashed ≠ some (hashSecretKey cm k))
    (hc : cacheConsistent cm cache) :
    getAccountAndEnvironment cm db cache (LookupOpts.secretKey k) =
      Except.ok ⟨none, cache, (lookupHash cm cache k).2⟩ := by
  have hlh := lookupHash_consistent cm cache k hc
  have hjf : joinFirst db
      (fun e => e.secret_key_hashed == some (hashSecretKey cm k)) = none :=
    joinFirst_none db _ (fun e he => by simp [hmiss e he])
  simp only [getAccountAndEnvironment, hdb, hlh, hjf, if_true]

/-- A concrete key-derivation function for demonstration instances. -/
def pbkdf2Demo (k ek : String) : String := "H(" ++ k ++ "|" ++ ek ++ ")"

/-- Crypto configuration with no `ENCRYPTION_KEY` (the documented insecure
fallback mode). -/
def cmNone : CryptoModel := ⟨none, pbkdf2Demo⟩

/-- Crypto configuration with `ENCRYPTION_KEY` set. -/
def cmDemo : CryptoModel := ⟨some "K", pbkdf2Demo⟩

def acctDemo : Account := ⟨7, "acme"⟩

/-- Modelled from the spec: the well-known default account id that the
self-hosted resolution is said to fix the lookup to. -/
def specDefaultAccountId : Nat := 0

def acctDefault : Account := ⟨specDefaultAccountId, "default"⟩

/-- A decrypted environment row: id 1, account 7, active secret `sk0`. -/
def plainDemo : Environment :=
  { id := 1, account_id := 7, name := "dev",
    secret_key := some "sk0", secret_key_iv := none, secret_key_tag := none,
    secret_key_hashed := some (hashSecretKey cmDemo "sk0"),
    pending_secret_key := none, pending_secret_key_iv := none,
    pending_secret_key_tag := none,
    public_key := some "pk0", pending_public_key := none,
    callback_url := some "cb", hmac_enabled := false }

/-- A healthy store holding the encrypted demonstration row. -/
def dbDemo : Db := ⟨true, [acctDemo], [encryptEnvironment cmDemo plainDemo]⟩

/-- The demonstration row in the no-encryption-key world (the hash of the
insecure fallback is the plaintext itself). -/
def envNoKey : Environment := { plainDemo with secret_key_hashed := some "sk0" }

def dbNoKey : Db := ⟨true, [acctDemo], [envNoKey]⟩

/-- A healthy store with no environment rows. -/
def dbEmptyDemo : Db := ⟨true, [acctDemo], []⟩

/-- A store whose persistence layer is unreachable. -/
def dbDeadDemo : Db := ⟨false, [acctDemo], [encryptEnvironment cmDemo plainDemo]⟩

/-- The demonstration row with a secret-key rotation pending. -/
def plainPend : Environment :=
  { plainDemo with pending_secret_key := some "nk2" }

/-- A healthy store holding the pending-rotation row in encrypted form. -/
def dbPend : Db := ⟨true, [acctDemo], [encryptEnvironment cmDemo plainPend]⟩

/-- C1.  The claim fails on the code and the code contradicts the explicit
requirement of the spec: `activateSecretKey` performs no pending-value check,
and there is no `InvalidRotationState` error anywhere in the service.
Called on environment id 1 with no pending secret key: with no encryption
key configured it reports success and silently overwrites the active
credential and its hash with NULL; with an encryption key configured it
throws a `TypeError` out of `pbkdf2(null)` (modelled as `Except.error`),
an uncaught exception rather than the required explicit rotation-state
error.  `activatePublicKey` likewise clears the active public key. -/
theorem claim1_activate_without_pending :
    activateSecretKey cmNone dbNoKey 1 =
      Except.ok (true,
        { dbNoKey with
            rows := [{ envNoKey with
                         secret_key := none, secret_key_hashed := none }] },
        [⟨1, [("secret_key", none), ("secret_key_hashed", none),
              ("pending_secret_key", none)]⟩]) ∧
    activateSecretKey cmDemo dbDemo 1 = Except.error () ∧
    activatePublicKey cmDemo dbDemo 1 =
      (true,
       { dbDemo with
           rows := [{ encryptEnvironment cmDemo plainDemo with
                        public_key := none, pending_public_key := none }] },
       [⟨1, [("public_key", none), ("pending_public_key", none)]⟩]) :=
  ⟨rfl, rfl, rfl⟩

/-- C2 counterexample.  The first update of `rotateSecretKey` writes the freshly
generated pending secret key to the store in plaintext (the encrypted
overwrite only comes in its second update), so not every write of a
sensitive field stores the encrypted form. -/
theorem claim2_counterexample :
    writesOnlyEncrypted cmDemo (rotateSecretKey cmDemo dbDemo 1 "nk1").2.2 =
      false := by
  decide

/-- C4 counterexample.  `rotatePublicKey` performs no existence check:
rotating the public key of the nonexistent environment id 5 still returns
the freshly generated value instead of failing with an absent result. -/
theorem claim4_counterexample :
    rotateKey cmDemo dbDemo 5 "public" "npk" =
      Except.ok (some "npk",
        { dbDemo with rows := dbDemo.rows },
        [⟨5, [("pending_public_key", some "npk")]⟩]) := rfl

/-- C9 counterexample.  An unreachable store does not surface as a
distinct `StoreUnavailable` error: `getById` catches the failure and
returns null — the same value it returns for a row that simply does not
exist — and `getEnvironmentsByAccountId` likewise returns the empty list,
so the caller cannot distinguish store failure from absence. -/
theorem claim9_counterexample :
    getById cmDemo dbDeadDemo 1 = none ∧
    getById cmDemo dbEmptyDemo 1 = none ∧
    getEnvironmentsByAccountId dbDeadDemo 7 = [] ∧
    getEnvironmentsByAccountId dbEmptyDemo 7 = [] :=
  ⟨rfl, rfl, rfl, rfl⟩

/-- C9, amended: a store failure on the read operations is reported and
absorbed inside the service — `getById`/`getRawById` return null and
`getEnvironmentsByAccountId` returns the empty list — rather than being
propagated as a typed `StoreUnavailable` error. -/
theorem claim9_amended (cm : CryptoModel) (db : Db) (id aid : Nat)
    (h : db.healthy = false) :
    getById cm db id = none ∧ getRawById db id = none ∧
    getEnvironmentsByAccountId db aid = [] := by
  unfold getById getRawById getEnvironmentsByAccountId
  rw [h]
  simp

theorem claim9_witness :
    dbDeadDemo.healthy = false ∧
    (getById cmDemo dbDeadDemo 1 = none ∧ getRawById dbDeadDemo 1 = none ∧
      getEnvironmentsByAccountId dbDeadDemo 7 = []) :=
  ⟨rfl, claim9_amended cmDemo dbDeadDemo 1 7 rfl⟩

/-- C2, amended: across the persistence operations of the subsystem that
touch secret material — createEnvironment, rotateSecretKey,
activateSecretKey and revertSecretKey — the final store state always
holds the row in fully encrypted form and every sensitive value in the
code-issued writes is in encrypted form, with one exception: the first of
the two updates of rotateSecretKey transiently writes the freshly
generated pending secret key in plaintext before the encrypted overwrite.
(The create insert itself writes no sensitive field; the plaintext
database default it produces is encrypted by the second phase of the
two-phase create.) -/
theorem claim2_amended (cm : CryptoModel) (ek : String)
    (hek : cm.encKey = some ek) :
    (∀ db accountId name freshId defSecret defPublic,
      db.healthy = true → (∀ e ∈ db.rows, e.id ≠ freshId) →
      ∃ ops,
        createEnvironment cm db accountId name freshId defSecret defPublic =
          Except.ok
            (some (createdEnv cm accountId name freshId defSecret defPublic),
             { db with
                 rows := db.rows ++
                   [encryptEnvironment cm
                     (createdEnv cm accountId name freshId defSecret
                       defPublic)] },
             ops) ∧
        writesOnlyEncrypted cm ops = true) ∧
    (∀ db id newKey p pre post,
      db.healthy = true → db.rows = pre ++ encryptEnvironment cm p :: post →
      p.id = id → (∀ e ∈ pre, e.id ≠ id) → (∀ e ∈ post, e.id ≠ id) →
      plainEnv p →
      ∃ op1 op2,
        rotateSecretKey cm db id newKey =
          (some newKey,
           { db with
               rows := pre ++
                 encryptEnvironment cm
                   { p with pending_secret_key := some newKey } :: post },
           [op1, op2]) ∧
        writesOnlyEncrypted cm [op2] = true ∧
        (encryptEnvironment cm
          { p with pending_secret_key := some newKey }).pending_secret_key =
          some (encryptStr ek newKey)) ∧
    (∀ db id k p pre post,
      db.healthy = true → db.rows = pre ++ encryptEnvironment cm p :: post →
      p.id = id → (∀ e ∈ pre, e.id ≠ id) → (∀ e ∈ post, e.id ≠ id) →
      plainEnv p → p.pending_secret_key = some k →
      ∃ ops,
        activateSecretKey cm db id =
          Except.ok (true,
            { db with
                rows := pre ++
                  encryptEnvironment cm
                    { p with secret_key := some k,
                             secret_key_hashed := some (hashSecretKey cm k),
                             pending_secret_key := none } :: post },
            ops) ∧
        writesOnlyEncrypted cm ops = true) ∧
    (∀ db id p pre post,
      db.healthy = true → db.rows = pre ++ encryptEnvironment cm p :: post →
      p.id = id → (∀ e ∈ pre, e.id ≠ id) → (∀ e ∈ post, e.id ≠ id) →
      plainEnv p →
      ∃ ops,
        revertSecretKey cm db id =
          (p.secret_key,
           { db with
               rows := pre ++
                 encryptEnvironment cm
                   { p with pending_secret_key := none,
                            pending_secret_key_iv := none,
                            pending_secret_key_tag := none } :: post },
           ops) ∧
        writesOnlyEncrypted cm ops = true) := by
  refine ⟨?_, ?_, ?_, ?_⟩
  · intro db accountId name freshId defSecret defPublic hdb hfresh
    refine ⟨_, createEnvironment_spec cm db accountId name freshId defSecret
      defPublic hdb hfresh, ?_⟩
    unfold writesOnlyEncrypted isEncryptedForm sensitiveField
    simp [createdEnv, encryptEnvironment, hek, decryptStr_encryptStr]
  · intro db id newKey p pre post hdb hrows hid hpre hpost hp
    refine ⟨_, _,
      rotateSecretKey_spec cm db id newKey p pre post hdb hrows hid hpre
        hpost hp,
      ?_, ?_⟩
    · unfold writesOnlyEncrypted isEncryptedForm sensitiveField
      cases hsk : p.secret_key <;>
        simp [encryptEnvironment, hek, decryptStr_encryptStr, hsk]
    · simp [encryptEnvironment, hek]
  · intro db id k p pre post hdb hrows hid hpre hpost hp hpend
    refine ⟨_, activateSecretKey_spec cm db id k p pre post hdb hrows hid
      hpre hpost hp hpend, ?_⟩
    unfold writesOnlyEncrypted isEncryptedForm sensitiveField
    simp [encryptEnvironment, hek, hpend, decryptStr_encryptStr]
  · intro db id p pre post hdb hrows hid hpre hpost hp
    refine ⟨_, revertSecretKey_spec cm db id p pre post hdb hrows hid hpre
      hpost hp, ?_⟩
    unfold writesOnlyEncrypted sensitiveField
    simp

theorem claim2_witness :
    cmDemo.encKey = some "K" ∧ dbDemo.healthy = true ∧ plainEnv plainDemo ∧
    plainPend.pending_secret_key = some "nk2" ∧
    (∃ ops,
      createEnvironment cmDemo dbDemo 7 "stage" 2 "ds" "dp" =
        Except.ok
          (some (createdEnv cmDemo 7 "stage" 2 "ds" "dp"),
           { dbDemo with
               rows := dbDemo.rows ++
                 [encryptEnvironment cmDemo
                   (createdEnv cmDemo 7 "stage" 2 "ds" "dp")] },
           ops) ∧
      writesOnlyEncrypted cmDemo ops = true) ∧
    (∃ op1 op2,
      rotateSecretKey cmDemo dbDemo 1 "nk1" =
        (some "nk1",
         { dbDemo with
             rows := [] ++
               encryptEnvironment cmDemo
                 { plainDemo with pending_secret_key := some "nk1" } :: [] },
         [op1, op2]) ∧
      writesOnlyEncrypted cmDemo [op2] = true ∧
      (encryptEnvironment cmDemo
        { plainDemo with
            pending_secret_key := some "nk1" }).pending_secret_key =
        some (encryptStr "K" "nk1")) ∧
    (∃ ops,
      activateSecretKey cmDemo dbPend 1 =
        Except.ok (true,
          { dbPend with
              rows := [] ++
                encryptEnvironment cmDemo
                  { plainPend with
                      secret_key := some "nk2",
                      secret_key_hashed := some (hashSecretKey cmDemo "nk2"),
                      pending_secret_key := none } :: [] },
          ops) ∧
      writesOnlyEncrypted cmDemo ops = true) ∧
    (∃ ops,
      revertSecretKey cmDemo dbPend 1 =
        (plainPend.secret_key,
         { dbPend with
             rows := [] ++
               encryptEnvironment cmDemo
                 { plainPend with
                     pending_secret_key := none,
                     pending_secret_key_iv := none,
                     pending_secret_key_tag := none } :: [] },
         ops) ∧
      writesOnlyEncrypted cmDemo ops = true) :=
  ⟨rfl, rfl, by decide, rfl,
   (claim2_amended cmDemo "K" rfl).1 dbDemo 7 "stage" 2 "ds" "dp" rfl
     (by decide),
   (claim2_amended cmDemo "K" rfl).2.1 dbDemo 1 "nk1" plainDemo [] [] rfl
     rfl rfl (by decide) (by decide) (by decide),
   (claim2_amended cmDemo "K" rfl).2.2.1 dbPend 1 "nk2" plainPend [] [] rfl
     rfl rfl (by decide) (by decide) (by decide) rfl,
   (claim2_amended cmDemo "K" rfl).2.2.2 dbPend 1 plainPend [] [] rfl rfl
     rfl (by decide) (by decide) (by decide)⟩

/-- C4, amended: on a missing environment id, `rotateKey` for the secret
type fails with an absent result and issues no write, while for the public
type it issues a write that touches no row yet still returns the freshly
generated value; on an existing environment, both types write the new
value into the pending slot, leave the active slot untouched, and return
the new pending value. -/
theorem claim4_amended (cm : CryptoModel) :
    (∀ db id newKey, db.healthy = true → (∀ e ∈ db.rows, e.id ≠ id) →
      rotateKey cm db id "secret" newKey = Except.ok (none, db, [])) ∧
    (∀ db id newKey, db.healthy = true → (∀ e ∈ db.rows, e.id ≠ id) →
      ∃ db2,
        rotateKey cm db id "public" newKey =
          Except.ok (some newKey, db2,
            [⟨id, [("pending_public_key", some newKey)]⟩]) ∧
        db2.rows = db.rows) ∧
    (∀ db id newKey p pre post, db.healthy = true →
      db.rows = pre ++ encryptEnvironment cm p :: post → p.id = id →
      (∀ e ∈ pre, e.id ≠ id) → (∀ e ∈ post, e.id ≠ id) → plainEnv p →
      ∃ db2 ops,
        rotateKey cm db id "secret" newKey =
          Except.ok (some newKey, db2, ops) ∧
        db2.rows = pre ++
          encryptEnvironment cm
            { p with pending_secret_key := some newKey } :: post ∧
        getById cm db2 id = some { p with pending_secret_key := some newKey } ∧
        (encryptEnvironment cm
          { p with pending_secret_key := some newKey }).secret_key =
          (encryptEnvironment cm p).secret_key ∧
        (encryptEnvironment cm
          { p with pending_secret_key := some newKey }).secret_key_hashed =
          (encryptEnvironment cm p).secret_key_hashed) ∧
    (∀ db id newKey pre post r, db.healthy = true →
      db.rows = pre ++ r :: post → r.id = id →
      (∀ e ∈ pre, e.id ≠ id) → (∀ e ∈ post, e.id ≠ id) →
      ∃ db2,
        rotateKey cm db id "public" newKey =
          Except.ok (some newKey, db2,
            [⟨id, [("pending_public_key", some newKey)]⟩]) ∧
        db2.rows = pre ++
          { r with pending_public_key := some newKey } :: post) := by
  refine ⟨?_, ?_, ?_, ?_⟩
  · intro db id newKey hdb hmiss
    have hfind : db.rows.find? (fun e => e.id == id) = none :=
      List.find?_eq_none.mpr (fun e he => by simp [hmiss e he])
    simp only [rotateKey, rotateSecretKey, getById, hdb, hfind, if_true]
    rfl
  · intro db id newKey hdb hmiss
    refine ⟨dbUpdateRow db id
      (fun e => { e with pending_public_key := some newKey }), ?_, ?_⟩
    · simp only [rotateKey, rotatePublicKey, hdb, if_true]
      rfl
    · unfold dbUpdateRow
      simp only
      conv_rhs => rw [← List.map_id db.rows]
      exact List.map_congr_left (fun e he => by simp [hmiss e he])
  · intro db id newKey p pre post hdb hrows hid hpre hpost hp
    have hrot := rotateSecretKey_spec cm db id newKey p pre post hdb hrows
      hid hpre hpost hp
    have h1 : rotateKey cm db id "secret" newKey =
        Except.ok (rotateSecretKey cm db id newKey) := rfl
    rw [hrot] at h1
    refine ⟨_, _, h1, rfl, ?_, ?_, by simp⟩
    · refine getById_spec cm _ id _ pre post hdb rfl (by simpa using hid)
        hpre ?_
      obtain ⟨h1, h2, h3, h4⟩ := hp
      exact ⟨h1, h2, h3, h4⟩
    · cases hek : cm.encKey <;> simp [encryptEnvironment, hek]
  · intro db id newKey pre post r hdb hrows hid hpre hpost
    refine ⟨dbUpdateRow db id
      (fun e => { e with pending_public_key := some newKey }), ?_, ?_⟩
    · simp only [rotateKey, rotatePublicKey, hdb, if_true]
      rfl
    · exact dbUpdateRow_rows db id _ pre post r hrows hid hpre hpost

theorem claim4_witness :
    dbEmptyDemo.healthy = true ∧ (∀ e ∈ dbEmptyDemo.rows, e.id ≠ 5) ∧
    rotateKey cmDemo dbEmptyDemo 5 "secret" "nk9" =
      Except.ok (none, dbEmptyDemo, []) ∧
    (∃ db2,
      rotateKey cmDemo dbEmptyDemo 5 "public" "npk" =
        Except.ok (some "npk", db2,
          [⟨5, [("pending_public_key", some "npk")]⟩]) ∧
      db2.rows = dbEmptyDemo.rows) ∧
    (∃ db2 ops,
      rotateKey cmDemo dbDemo 1 "secret" "nk1" =
        Except.ok (some "nk1", db2, ops) ∧
      db2.rows = [] ++
        encryptEnvironment cmDemo
          { plainDemo with pending_secret_key := some "nk1" } :: [] ∧
      getById cmDemo db2 1 =
        some { plainDemo with pending_secret_key := some "nk1" } ∧
      (encryptEnvironment cmDemo
        { plainDemo with pending_secret_key := some "nk1" }).secret_key =
        (encryptEnvironment cmDemo plainDemo).secret_key ∧
      (encryptEnvironment cmDemo
        { plainDemo with pending_secret_key := some "nk1" }).secret_key_hashed =
        (encryptEnvironment cmDemo plainDemo).secret_key_hashed) :=
  ⟨rfl, by decide,
   (claim4_amended cmDemo).1 dbEmptyDemo 5 "nk9" rfl (by decide),
   (claim4_amended cmDemo).2.1 dbEmptyDemo 5 "npk" rfl (by decide),
   (claim4_amended cmDemo).2.2.1 dbDemo 1 "nk1" plainDemo [] [] rfl rfl rfl
     (by decide) (by decide) (by decide)⟩

theorem clearPending_noop (p : Environment) (hp : plainEnv p)
    (h : p.pending_secret_key = none) :
    { p with pending_secret_key := none, pending_secret_key_iv := none,
             pending_secret_key_tag := none } = p := by
  obtain ⟨h1, h2, h3, h4⟩ := hp
  obtain ⟨i, ai, nm, sk, siv, stg, sh, pk, piv, ptg, pub, ppub, cb, hm⟩ := p
  simp only at h h3 h4
  subst h h3 h4
  rfl

/-- C5.  `rotateSecretKey` followed by `revertSecretKey` leaves the stored
active credential ciphertext and its hash byte-for-byte unchanged with the
pending slot absent, returning the still-active plaintext value; and
`revertSecretKey` with no pending value is a row-level no-op (not an
error) that still returns the active value. -/
theorem claim5_rotate_revert_frame (cm : CryptoModel) (db : Db) (id : Nat)
    (newKey oldKey : String) (p : Environment) (pre post : List Environment)
    (hdb : db.healthy = true)
    (hrows : db.rows = pre ++ encryptEnvironment cm p :: post)
    (hid : p.id = id)
    (hpre : ∀ e ∈ pre, e.id ≠ id) (hpost : ∀ e ∈ post, e.id ≠ id)
    (hp : plainEnv p)
    (hsk : p.secret_key = some oldKey) :
    (∃ db2 ops,
      revertSecretKey cm (rotateSecretKey cm db id newKey).2.1 id =
        (some oldKey, db2, ops) ∧
      db2.rows = pre ++
        encryptEnvironment cm
          { p with pending_secret_key := none,
                   pending_secret_key_iv := none,
                   pending_secret_key_tag := none } :: post ∧
      (encryptEnvironment cm
        { p with pending_secret_key := none,
                 pending_secret_key_iv := none,
                 pending_secret_key_tag := none }).secret_key =
        (encryptEnvironment cm p).secret_key ∧
      (encryptEnvironment cm
        { p with pending_secret_key := none,
                 pending_secret_key_iv := none,
                 pending_secret_key_tag := none }).secret_key_hashed =
        p.secret_key_hashed ∧
      (encryptEnvironment cm
        { p with pending_secret_key := none,
                 pending_secret_key_iv := none,
                 pending_secret_key_tag := none }).pending_secret_key =
        none) ∧
    (p.pending_secret_key = none →
      ∃ db3 ops2,
        revertSecretKey cm db id = (some oldKey, db3, ops2) ∧
        db3.rows = db.rows) := by
  have hp1 : plainEnv { p with pending_secret_key := some newKey } := hp
  constructor
  · have hrot := rotateSecretKey_spec cm db id newKey p pre post hdb hrows
      hid hpre hpost hp
    have hrev := revertSecretKey_spec cm
      { db with
          rows := pre ++
            encryptEnvironment cm
              { p with pending_secret_key := some newKey } :: post }
      id { p with pending_secret_key := some newKey } pre post hdb rfl hid
      hpre hpost hp1
    have hfinal : revertSecretKey cm
        (rotateSecretKey cm db id newKey).2.1 id =
        (some oldKey,
         { db with
             rows := pre ++
               encryptEnvironment cm
                 { p with pending_secret_key := none,
                          pending_secret_key_iv := none,
                          pending_secret_key_tag := none } :: post },
         [⟨id, [("pending_secret_key", none)]⟩]) := by
      rw [hrot, ← hsk]
      exact hrev
    refine ⟨_, _, hfinal, rfl, ?_, by simp, ?_⟩
    · cases hek : cm.encKey <;> simp [encryptEnvironment, hek]
    · cases hek : cm.encKey <;> simp [encryptEnvironment, hek]
  · intro hpend0
    have hrev2 := revertSecretKey_spec cm db id p pre post hdb hrows hid
      hpre hpost hp
    rw [clearPending_noop p hp hpend0] at hrev2
    rw [hsk] at hrev2
    refine ⟨_, _, hrev2, ?_⟩
    exact hrows.symm

/-- C3.  After `rotateSecretKey` then `activateSecretKey`, the single
update of the activation leaves the store holding the row with the former
pending value in the active slot, the hash freshly computed from it, and
the pending slot cleared; a resolver call reading after the transition
authenticates the new value (returning this account/environment pair) and
no longer authenticates the old value. -/
theorem claim3_rotate_activate_switchover (cm : CryptoModel) (db : Db)
    (cache : Cache) (id : Nat) (newKey oldKey : String) (p : Environment)
    (pre post : List Environment) (acct : Account)
    (hdb : db.healthy = true)
    (hrows : db.rows = pre ++ encryptEnvironment cm p :: post)
    (hid : p.id = id)
    (hpre : ∀ e ∈ pre, e.id ≠ id) (hpost : ∀ e ∈ post, e.id ≠ id)
    (hp : plainEnv p)
    (hsk : p.secret_key = some oldKey)
    (hacct : db.accounts.find? (fun a => a.id == p.account_id) = some acct)
    (hnewmiss : ∀ e ∈ pre ++ post,
      e.secret_key_hashed ≠ some (hashSecretKey cm newKey))
    (holdmiss : ∀ e ∈ pre ++ post,
      e.secret_key_hashed ≠ some (hashSecretKey cm oldKey))
    (hneq : hashSecretKey cm newKey ≠ hashSecretKey cm oldKey)
    (hne : hashSecretKey cm newKey ≠ "")
    (hc : cacheConsistent cm cache) :
    ∃ db2 ops,
      activateSecretKey cm (rotateSecretKey cm db id newKey).2.1 id =
        Except.ok (true, db2, ops) ∧
      db2.rows = pre ++
        encryptEnvironment cm
          { p with secret_key := some newKey,
                   secret_key_hashed := some (hashSecretKey cm newKey),
                   pending_secret_key := none } :: post ∧
      getAccountAndEnvironment cm db2 cache (LookupOpts.secretKey newKey) =
        Except.ok ⟨some (acct,
            { p with secret_key := some newKey,
                     secret_key_hashed := some (hashSecretKey cm newKey),
                     pending_secret_key := none }),
          cacheSet cache newKey (hashSecretKey cm newKey),
          (lookupHash cm cache newKey).2⟩ ∧
      getAccountAndEnvironment cm db2 cache (LookupOpts.secretKey oldKey) =
        Except.ok ⟨none, cache, (lookupHash cm cache oldKey).2⟩ := by
  have hp1 : plainEnv { p with pending_secret_key := some newKey } := hp
  have hrot := rotateSecretKey_spec cm db id newKey p pre post hdb hrows hid
    hpre hpost hp
  have hact := activateSecretKey_spec cm
    { db with
        rows := pre ++
          encryptEnvironment cm
            { p with pending_secret_key := some newKey } :: post }
    id newKey { p with pending_secret_key := some newKey } pre post hdb rfl
    hid hpre hpost hp1 rfl
  have hfin : activateSecretKey cm (rotateSecretKey cm db id newKey).2.1 id =
      Except.ok (true,
        { db with
            rows := pre ++
              encryptEnvironment cm
                { p with secret_key := some newKey,
                         secret_key_hashed := some (hashSecretKey cm newKey),
                         pending_secret_key := none } :: post },
        [⟨id, [("secret_key",
                 (encryptEnvironment cm
                   { p with pending_secret_key := some newKey
                     }).pending_secret_key),
               ("secret_key_hashed", some (hashSecretKey cm newKey)),
               ("pending_secret_key", none)]⟩]) := by
    rw [hrot]
    exact hact
  refine ⟨_, _, hfin, rfl, ?_, ?_⟩
  · refine resolveSecret_found cm _ cache newKey
      { p with secret_key := some newKey,
               secret_key_hashed := some (hashSecretKey cm newKey),
               pending_secret_key := none }
      pre post acct hdb rfl hp rfl
      (fun e he => hnewmiss e (List.mem_append_left post he)) hacct hc hne
  · refine resolveSecret_none cm _ cache oldKey hdb ?_ hc
    intro e he
    rcases List.mem_append.mp he with h1 | h2
    · exact holdmiss e (List.mem_append_left post h1)
    · rcases List.mem_cons.mp h2 with rfl | h3
      · intro heq
        apply hneq
        simpa using heq
      · exact holdmiss e (List.mem_append_right pre h3)

theorem cacheGet_cacheSet (c : Cache) (k v : String) :
    cacheGet (cacheSet c k v) k = some v := by
  simp [cacheGet, cacheSet]

theorem cacheSet_idem (c : Cache) (k v : String) :
    cacheSet (cacheSet c k v) k v = cacheSet c k v := by
  simp [cacheSet, List.filter_filter]

theorem lookupHash_cacheSet (cm : CryptoModel) (c : Cache) (k v : String)
    (hv : v ≠ "") : lookupHash cm (cacheSet c k v) k = (v, 0) := by
  unfold lookupHash
  rw [cacheGet_cacheSet]
  have hbe : (v == "") = false := by simpa using hv
  simp [hbe]

theorem cacheSet_consistent (cm : CryptoModel) (c : Cache) (k v : String)
    (hc : cacheConsistent cm c) (hv : v = hashSecretKey cm k) :
    cacheConsistent cm (cacheSet c k v) := by
  intro q hq
  rcases List.mem_cons.mp hq with h1 | h2
  · rw [h1]
    simpa using hv
  · exact hc q (List.mem_of_mem_filter h2)

/-- C6.  A `resolveBySecret` attempt whose derived hash matches no stored
row returns null and leaves the hash cache exactly as it was: no entry is
created on a miss (only a successful row match writes the cache). -/
theorem claim6_no_negative_caching (cm : CryptoModel) (db : Db)
    (cache : Cache) (k : String)
    (hdb : db.healthy = true)
    (hmiss : ∀ e ∈ db.rows,
      e.secret_key_hashed ≠ some (hashSecretKey cm k))
    (hc : cacheConsistent cm cache) :
    getAccountAndEnvironment cm db cache (LookupOpts.secretKey k) =
      Except.ok ⟨none, cache, (lookupHash cm cache k).2⟩ ∧
    (∀ out, getAccountAndEnvironment cm db cache (LookupOpts.secretKey k) =
        Except.ok out → out.cache = cache) := by
  have h1 := resolveSecret_none cm db cache k hdb hmiss hc
  refine ⟨h1, fun out hout => ?_⟩
  rw [h1] at hout
  injection hout with h2
  rw [← h2]

/-- C7.  When a secret key resolves successfully, the call caches the
derived hash; an immediately following resolution of the same key with no
intervening rotation reads the hash from the cache and performs zero
derivation calls while returning the same pair. -/
theorem claim7_cache_hit_on_second_resolve (cm : CryptoModel) (db : Db)
    (cache : Cache) (k : String) (p : Environment)
    (pre post : List Environment) (acct : Account)
    (hdb : db.healthy = true)
    (hrows : db.rows = pre ++ encryptEnvironment cm p :: post)
    (hp : plainEnv p)
    (hmatch : p.secret_key_hashed = some (hashSecretKey cm k))
    (hpre : ∀ e ∈ pre, e.secret_key_hashed ≠ some (hashSecretKey cm k))
    (hacct : db.accounts.find? (fun a => a.id == p.account_id) = some acct)
    (hc : cacheConsistent cm cache)
    (hne : hashSecretKey cm k ≠ "") :
    getAccountAndEnvironment cm db cache (LookupOpts.secretKey k) =
      Except.ok ⟨some (acct, p), cacheSet cache k (hashSecretKey cm k),
        (lookupHash cm cache k).2⟩ ∧
    getAccountAndEnvironment cm db (cacheSet cache k (hashSecretKey cm k))
        (LookupOpts.secretKey k) =
      Except.ok ⟨some (acct, p), cacheSet cache k (hashSecretKey cm k),
        0⟩ := by
  have h1 := resolveSecret_found cm db cache k p pre post acct hdb hrows hp
    hmatch hpre hacct hc hne
  have hc2 : cacheConsistent cm (cacheSet cache k (hashSecretKey cm k)) :=
    cacheSet_consistent cm cache k _ hc rfl
  have h2 := resolveSecret_found cm db
    (cacheSet cache k (hashSecretKey cm k)) k p pre post acct hdb hrows hp
    hmatch hpre hacct hc2 hne
  rw [cacheSet_idem, lookupHash_cacheSet cm cache k _ hne] at h2
  exact ⟨h1, h2⟩

/-- Self-hosted configuration with one secret-key override variable whose
suffix names the existing "dev" environment. -/
def cfgSelfHosted : Config := ⟨false, [("NANGO_SECRET_KEY_DEV", "abc123")]⟩

/-- Self-hosted configuration whose override variable names an environment
("staging") that has no row in the store. -/
def cfgNoRow : Config := ⟨false, [("NANGO_SECRET_KEY_STAGING", "abc123")]⟩

/-- A store holding the default account of the spec, a second account (id 7),
and a single "dev" environment owned by account 7. -/
def dbSelfHosted : Db :=
  ⟨true, [acctDefault, acctDemo], [encryptEnvironment cmDemo plainDemo]⟩

/-- C8 counterexample.  With `NANGO_SECRET_KEY_DEV=abc123` configured and
the only "dev" row owned by account 7, `resolveBySecret("abc123")` returns
the environment of account 7: the code looks the row up by name alone and
uses the `account_id` of that row, so the lookup is not keyed by the well-known
default account — under which the claimed `{accountId, envName}` lookup
finds nothing. -/
theorem claim8_counterexample :
    getAccountAndEnvironmentBySecretKey cmDemo cfgSelfHosted dbSelfHosted []
        "abc123" =
      Except.ok ⟨some (acctDemo, plainDemo), [], 0⟩ ∧
    acctDemo.id ≠ specDefaultAccountId ∧
    getAccountAndEnvironment cmDemo dbSelfHosted []
        (LookupOpts.byName specDefaultAccountId "dev") =
      Except.ok ⟨none, [], 0⟩ :=
  ⟨rfl, by decide, rfl⟩

/-- C8, amended: in self-hosted mode, when the value of an override
variable equals the presented key, the service derives the environment
name from the suffix of the variable, finds the first row with that name
across all accounts, and resolves by the own `account_id` of that row, with
no hash derivation occurring. -/
theorem claim8_amended (cm : CryptoModel) (cfg : Config) (db : Db)
    (cache : Cache) (k : String) (pr : String × String) (env0 : Environment)
    (hcloud : cfg.isCloud = false)
    (hvar : (cfg.procEnv.filter
        (fun q => strStarts secretKeyVarPre q.1)).find?
        (fun q => q.2 == k) = some pr)
    (hdb : db.healthy = true)
    (hrow : db.rows.find?
        (fun e => e.name == strLower (strDropChars secretKeyVarPre.data.length pr.1)) =
        some env0) :
    getAccountAndEnvironmentBySecretKey cm cfg db cache k =
      getAccountAndEnvironment cm db cache
        (LookupOpts.byName env0.account_id
          (strLower (strDropChars secretKeyVarPre.data.length pr.1))) ∧
    (∀ out, getAccountAndEnvironment cm db cache
        (LookupOpts.byName env0.account_id
          (strLower (strDropChars secretKeyVarPre.data.length pr.1))) = Except.ok out →
      out.derivations = 0) := by
  constructor
  · unfold getAccountAndEnvironmentBySecretKey
    rw [hcloud]
    simp only [Bool.not_false, if_true, hvar, hdb, hrow]
  · intro out hout
    unfold getAccountAndEnvironment at hout
    rw [hdb] at hout
    simp only [if_true] at hout
    cases hjf : joinFirst db (fun e =>
        e.account_id == env0.account_id &&
        e.name == strLower (strDropChars secretKeyVarPre.data.length pr.1)) with
    | none =>
      rw [hjf] at hout
      injection hout with h
      rw [← h]
    | some pr2 =>
      obtain ⟨a2, e2⟩ := pr2
      rw [hjf] at hout
      cases hdec : decryptEnvironment cm e2 with
      | none =>
        simp only [hdec] at hout
        injection hout with h
        rw [← h]
      | some e3 =>
        simp only [hdec] at hout
        injection hout with h
        rw [← h]

/-- C10.  In self-hosted mode, when the value of an override variable
equals the presented key but no row carries its lowercased suffix as
its name, `resolveBySecret` returns null immediately: the cache is left
unchanged and zero derivations run, so the hashed-lookup fallback is never
taken. -/
theorem claim10_selfhosted_miss_absent (cm : CryptoModel) (cfg : Config)
    (db : Db) (cache : Cache) (k : String) (pr : String × String)
    (hcloud : cfg.isCloud = false)
    (hvar : (cfg.procEnv.filter
        (fun q => strStarts secretKeyVarPre q.1)).find?
        (fun q => q.2 == k) = some pr)
    (hdb : db.healthy = true)
    (hnone : db.rows.find?
        (fun e => e.name == strLower (strDropChars secretKeyVarPre.data.length pr.1)) =
        none) :
    getAccountAndEnvironmentBySecretKey cm cfg db cache k =
      Except.ok ⟨none, cache, 0⟩ := by
  unfold getAccountAndEnvironmentBySecretKey
  rw [hcloud]
  simp only [Bool.not_false, if_true, hvar, hdb, hnone]

theorem claim3_witness :
    dbDemo.healthy = true ∧
    hashSecretKey cmDemo "nk1" ≠ hashSecretKey cmDemo "sk0" ∧
    hashSecretKey cmDemo "nk1" ≠ "" ∧
    (∃ db2 ops,
      activateSecretKey cmDemo (rotateSecretKey cmDemo dbDemo 1 "nk1").2.1 1 =
        Except.ok (true, db2, ops) ∧
      db2.rows = [] ++
        encryptEnvironment cmDemo
          { plainDemo with
              secret_key := some "nk1",
              secret_key_hashed := some (hashSecretKey cmDemo "nk1"),
              pending_secret_key := none } :: [] ∧
      getAccountAndEnvironment cmDemo db2 [] (LookupOpts.secretKey "nk1") =
        Except.ok ⟨some (acctDemo,
            { plainDemo with
                secret_key := some "nk1",
                secret_key_hashed := some (hashSecretKey cmDemo "nk1"),
                pending_secret_key := none }),
          cacheSet [] "nk1" (hashSecretKey cmDemo "nk1"),
          (lookupHash cmDemo [] "nk1").2⟩ ∧
      getAccountAndEnvironment cmDemo db2 [] (LookupOpts.secretKey "sk0") =
        Except.ok ⟨none, [], (lookupHash cmDemo [] "sk0").2⟩) :=
  ⟨rfl, by decide, by decide,
   claim3_rotate_activate_switchover cmDemo dbDemo [] 1 "nk1" "sk0"
     plainDemo [] [] acctDemo rfl rfl rfl (by decide) (by decide) (by decide)
     rfl (by decide) (by decide) (by decide) (by decide) (by decide)
     (by decide)⟩

theorem claim5_witness :
    dbDemo.healthy = true ∧ plainEnv plainDemo ∧
    plainDemo.secret_key = some "sk0" ∧
    plainDemo.pending_secret_key = none ∧
    ((∃ db2 ops,
      revertSecretKey cmDemo (rotateSecretKey cmDemo dbDemo 1 "nk1").2.1 1 =
        (some "sk0", db2, ops) ∧
      db2.rows = [] ++
        encryptEnvironment cmDemo
          { plainDemo with
              pending_secret_key := none,
              pending_secret_key_iv := none,
              pending_secret_key_tag := none } :: [] ∧
      (encryptEnvironment cmDemo
        { plainDemo with
            pending_secret_key := none,
            pending_secret_key_iv := none,
            pending_secret_key_tag := none }).secret_key =
        (encryptEnvironment cmDemo plainDemo).secret_key ∧
      (encryptEnvironment cmDemo
        { plainDemo with
            pending_secret_key := none,
            pending_secret_key_iv := none,
            pending_secret_key_tag := none }).secret_key_hashed =
        plainDemo.secret_key_hashed ∧
      (encryptEnvironment cmDemo
        { plainDemo with
            pending_secret_key := none,
            pending_secret_key_iv := none,
            pending_secret_key_tag := none }).pending_secret_key = none) ∧
    (plainDemo.pending_secret_key = none →
      ∃ db3 ops2,
        revertSecretKey cmDemo dbDemo 1 = (some "sk0", db3, ops2) ∧
        db3.rows = dbDemo.rows)) :=
  ⟨rfl, by decide, rfl, rfl,
   claim5_rotate_revert_frame cmDemo dbDemo 1 "nk1" "sk0" plainDemo [] []
     rfl rfl rfl (by decide) (by decide) (by decide) rfl⟩

theorem claim6_witness :
    dbDemo.healthy = true ∧
    (∀ e ∈ dbDemo.rows,
      e.secret_key_hashed ≠ some (hashSecretKey cmDemo "wrong")) ∧
    (getAccountAndEnvironment cmDemo dbDemo [] (LookupOpts.secretKey "wrong") =
        Except.ok ⟨none, [], (lookupHash cmDemo [] "wrong").2⟩ ∧
      ∀ out,
        getAccountAndEnvironment cmDemo dbDemo []
            (LookupOpts.secretKey "wrong") = Except.ok out →
          out.cache = []) :=
  ⟨rfl, by decide,
   claim6_no_negative_caching cmDemo dbDemo [] "wrong" rfl (by decide)
     (by decide)⟩

theorem claim7_witness :
    dbDemo.healthy = true ∧
    plainDemo.secret_key_hashed = some (hashSecretKey cmDemo "sk0") ∧
    hashSecretKey cmDemo "sk0" ≠ "" ∧
    (getAccountAndEnvironment cmDemo dbDemo [] (LookupOpts.secretKey "sk0") =
        Except.ok ⟨some (acctDemo, plainDemo),
          cacheSet [] "sk0" (hashSecretKey cmDemo "sk0"),
          (lookupHash cmDemo [] "sk0").2⟩ ∧
      getAccountAndEnvironment cmDemo dbDemo
          (cacheSet [] "sk0" (hashSecretKey cmDemo "sk0"))
          (LookupOpts.secretKey "sk0") =
        Except.ok ⟨some (acctDemo, plainDemo),
          cacheSet [] "sk0" (hashSecretKey cmDemo "sk0"), 0⟩) :=
  ⟨rfl, rfl, by decide,
   claim7_cache_hit_on_second_resolve cmDemo dbDemo [] "sk0" plainDemo [] []
     acctDemo rfl rfl (by decide) rfl (by decide) (by decide) (by decide)
     (by decide)⟩

theorem claim8_witness :
    cfgSelfHosted.isCloud = false ∧
    ((cfgSelfHosted.procEnv.filter
        (fun q => strStarts secretKeyVarPre q.1)).find?
        (fun q => q.2 == "abc123") =
      some ("NANGO_SECRET_KEY_DEV", "abc123")) ∧
    (getAccountAndEnvironmentBySecretKey cmDemo cfgSelfHosted dbSelfHosted []
        "abc123" =
      getAccountAndEnvironment cmDemo dbSelfHosted []
        (LookupOpts.byName
          (encryptEnvironment cmDemo plainDemo).account_id
          (strLower (strDropChars secretKeyVarPre.data.length
            "NANGO_SECRET_KEY_DEV"))) ∧
      ∀ out,
        getAccountAndEnvironment cmDemo dbSelfHosted []
            (LookupOpts.byName
              (encryptEnvironment cmDemo plainDemo).account_id
              (strLower (strDropChars secretKeyVarPre.data.length
                "NANGO_SECRET_KEY_DEV"))) = Except.ok out →
          out.derivations = 0) :=
  ⟨rfl, by decide,
   claim8_amended cmDemo cfgSelfHosted dbSelfHosted [] "abc123"
     ("NANGO_SECRET_KEY_DEV", "abc123") (encryptEnvironment cmDemo plainDemo)
     rfl (by decide) rfl (by decide)⟩

theorem claim10_witness :
    cfgNoRow.isCloud = false ∧
    (dbSelfHosted.rows.find?
        (fun e => e.name ==
          strLower (strDropChars secretKeyVarPre.data.length
            "NANGO_SECRET_KEY_STAGING")) = none) ∧
    getAccountAndEnvironmentBySecretKey cmDemo cfgNoRow dbSelfHosted []
        "abc123" =
      Except.ok ⟨none, [], 0⟩ :=
  ⟨rfl, by decide,
   claim10_selfhosted_miss_absent cmDemo cfgNoRow dbSelfHosted [] "abc123"
     ("NANGO_SECRET_KEY_STAGING", "abc123") rfl (by decide) rfl (by decide)⟩

end Nango
